import Mathlib

/-!
Shallow embedding of the RTI Connext starter-kit parameter utilities:
the parameter server (DDSServerParameterSetup.hpp), the parameter client
(DDSClientParameterSetup.hpp), the YAML loader (DDSParameterUtils.hpp)
and the CLI argument parsing (burst_large_data_app/application.hpp),
together with theorems checking the specification claims against them.
-/

namespace CSK

/-- Stand-in for a C++ double: the repository code never computes with
doubles, it only stores and copies them, so we model a double as its
64-bit pattern. -/
structure CDouble where
  bits : Nat
deriving DecidableEq, Repr

/-- ParameterValue union from ExampleTypes (IDL-generated): discriminated
union of the ten parameter value kinds used by the parameter service. -/
inductive ParameterValue where
  | not_set
  | bool_value (b : Bool)
  | integer_value (i : Int)
  | double_value (d : CDouble)
  | string_value (s : String)
  | byte_array_value (v : List Nat)
  | bool_array_value (v : List Bool)
  | integer_array_value (v : List Int)
  | double_array_value (v : List CDouble)
  | string_array_value (v : List String)
deriving DecidableEq, Repr

/-- Parameter from ExampleTypes: a named value. -/
structure Parameter where
  name : String
  value : ParameterValue
deriving DecidableEq, Repr

/-- SetParameterResult from ExampleTypes. -/
structure SetParameterResult where
  successful : Bool
  reason : String
deriving DecidableEq, Repr

/-- SetParametersRequest message. -/
structure SetParametersRequest where
  node_id : String
  request_id : Nat
  parameters : List Parameter
deriving DecidableEq, Repr

/-- SetParametersResponse message. -/
structure SetParametersResponse where
  node_id : String
  request_id : Nat
  results : List SetParameterResult
deriving DecidableEq, Repr

/-- GetParametersRequest message. -/
structure GetParametersRequest where
  node_id : String
  request_id : Nat
  names : List String
deriving DecidableEq, Repr

/-- GetParametersResponse message. -/
structure GetParametersResponse where
  node_id : String
  request_id : Nat
  parameters : List Parameter
deriving DecidableEq, Repr

/-- ListParametersRequest message. -/
structure ListParametersRequest where
  node_id : String
  request_id : Nat
  prefixes : List String
  depth : Nat
deriving DecidableEq, Repr

/-- ListParametersResponse message. -/
structure ListParametersResponse where
  node_id : String
  request_id : Nat
  names : List String
deriving DecidableEq, Repr

/-- ParameterEvent message published by the server after changes. -/
structure ParameterEvent where
  node_id : String
  timestamp_ns : Nat
  new_parameters : List Parameter
  changed_parameters : List Parameter
  deleted_parameters : List Parameter
deriving DecidableEq, Repr

/-- Sample as delivered by a DataReader take(): payload plus the
validity flag of its SampleInfo. -/
structure Sample (α : Type) where
  valid : Bool
  data : α
deriving DecidableEq, Repr

/-! The server stores parameters in a std::map keyed by the parameter
name.  We model the map as its ordered entry list; lookup scans for the
key, insertion keeps the strictly increasing key order of std::map. -/

/-- Lookup in the entry list of the std::map (models map::find / map::at). -/
def mapFind : List (String × Parameter) → String → Option Parameter
  | [], _ => none
  | (k, v) :: rest, n => if n = k then some v else mapFind rest n

/-- Ordered insertion (models map::operator[] assignment): replaces the
entry when the key is present, otherwise places the new entry at its
ordered position. -/
def mapInsert (k : String) (v : Parameter) : List (String × Parameter) → List (String × Parameter)
  | [] => [(k, v)]
  | (k2, v2) :: rest =>
    if k < k2 then (k, v) :: (k2, v2) :: rest
    else if k = k2 then (k, v) :: rest
    else (k2, v2) :: mapInsert k v rest

/-- Erase the entry of a key (models map::erase at the iterator returned
by map::find; a std::map holds at most one entry per key). -/
def mapErase : List (String × Parameter) → String → List (String × Parameter)
  | [], _ => []
  | (k2, v2) :: rest, n => if n = k2 then rest else (k2, v2) :: mapErase rest n

/-! Server state: DDSServerParameterSetup holds a node name, the
parameter map and the three pending-change vectors. -/

/-- State carried by DDSServerParameterSetup: node name, parameter map
(ordered entry list) and the three pending vectors that feed the next
ParameterEvent. -/
structure ServerState where
  node_name : String
  parameters : List (String × Parameter)
  pending_new : List Parameter
  pending_changed : List Parameter
  pending_deleted : List Parameter
deriving DecidableEq, Repr

/-- State of a freshly constructed server: empty map, empty pendings. -/
def initial_state (nn : String) : ServerState :=
  { node_name := nn, parameters := [], pending_new := [],
    pending_changed := [], pending_deleted := [] }

/-- DDSServerParameterSetup::set_parameter: records whether the name is
new, stores the parameter under its name, and appends it to pending_new
or pending_changed accordingly. -/
def set_parameter (s : ServerState) (param : Parameter) : ServerState :=
  let is_new := (mapFind s.parameters param.name).isNone
  let s2 := { s with parameters := mapInsert param.name param s.parameters }
  if is_new then { s2 with pending_new := s2.pending_new ++ [param] }
  else { s2 with pending_changed := s2.pending_changed ++ [param] }

/-- DDSServerParameterSetup::has_parameter. -/
def has_parameter (s : ServerState) (name : String) : Bool :=
  (mapFind s.parameters name).isSome

/-- DDSServerParameterSetup::get_parameter uses map::at, which throws on
a missing key; the server only calls it under a has_parameter guard, so
we model it as the optional map lookup. -/
def get_parameter (s : ServerState) (name : String) : Option Parameter :=
  mapFind s.parameters name

/-- DDSServerParameterSetup::get_all_parameters: the values of the map
in its iteration order. -/
def get_all_parameters (s : ServerState) : List Parameter :=
  s.parameters.map Prod.snd

/-- DDSServerParameterSetup::publish_event.  Writing to the event
DataWriter is modelled as the returned optional event; the timestamp of
the wall clock read by current_timestamp_ns is an input. -/
def publish_event (ts : Nat) (s : ServerState) : Option ParameterEvent × ServerState :=
  if s.pending_new.isEmpty && s.pending_changed.isEmpty && s.pending_deleted.isEmpty then
    (none, s)
  else
    (some { node_id := s.node_name, timestamp_ns := ts,
            new_parameters := s.pending_new,
            changed_parameters := s.pending_changed,
            deleted_parameters := s.pending_deleted },
     { s with pending_new := [], pending_changed := [], pending_deleted := [] })

/-- DDSServerParameterSetup::delete_parameter: when the name is found,
push the stored parameter on pending_deleted and erase it; in every
case call publish_event. -/
def delete_parameter (ts : Nat) (s : ServerState) (name : String) :
    Option ParameterEvent × ServerState :=
  let s2 := match mapFind s.parameters name with
    | some p => { s with pending_deleted := s.pending_deleted ++ [p],
                         parameters := mapErase s.parameters name }
    | none => s
  publish_event ts s2

/-- DDSServerParameterSetup::set_parameters (the public bulk setter):
set each parameter, then publish one event. -/
def server_set_parameters (ts : Nat) (s : ServerState) (params : List Parameter) :
    Option ParameterEvent × ServerState :=
  publish_event ts (params.foldl set_parameter s)

/-- Dot counting used by list_parameter_names
(std::count over the characters of the name). -/
def countDots (s : String) : Nat := s.data.count '.'

/-- Loop body of DDSServerParameterSetup::list_parameter_names: keep a
key when the prefix is empty or occurs at position 0 of the key
(string::find(prefix) == 0 means the key starts with the prefix), and,
when depth > 0, when the key has fewer than depth dots. -/
def list_names_go (pre : String) (depth : Nat) : List (String × Parameter) → List String
  | [] => []
  | (k, _) :: rest =>
    if pre = "" || pre.data.isPrefixOf k.data then
      if depth > 0 && decide (countDots k ≥ depth) then list_names_go pre depth rest
      else k :: list_names_go pre depth rest
    else list_names_go pre depth rest

/-- DDSServerParameterSetup::list_parameter_names. -/
def list_parameter_names (s : ServerState) (pre : String) (depth : Nat) : List String :=
  list_names_go pre depth s.parameters

/-- Loop body of DDSServerParameterSetup::handle_get_requests: for each
requested name, if has_parameter holds push get_parameter of it (the
guard makes the map::at lookup total). -/
def get_request_params (s : ServerState) : List String → List Parameter
  | [] => []
  | n :: rest =>
    if has_parameter s n then (get_parameter s n).toList ++ get_request_params s rest
    else get_request_params s rest

/-- Response built by DDSServerParameterSetup::handle_get_requests for
one request: the server's node name, the request's id, and the stored
parameters of the requested names that are present. -/
def handle_get_request (s : ServerState) (req : GetParametersRequest) : GetParametersResponse :=
  { node_id := s.node_name, request_id := req.request_id,
    parameters := get_request_params s req.names }

/-- DDSServerParameterSetup::handle_get_requests over the batch taken
from the reader: skip invalid samples, write one response per valid
sample.  The writes are modelled as the returned list. -/
def handle_get_requests (s : ServerState) : List (Sample GetParametersRequest) → List GetParametersResponse
  | [] => []
  | smp :: rest =>
    if smp.valid then handle_get_request s smp.data :: handle_get_requests s rest
    else handle_get_requests s rest

/-- Loop of DDSServerParameterSetup::handle_list_requests over the
request's prefixes, concatenating the per-prefix name lists. -/
def list_over_prefixes (s : ServerState) (depth : Nat) : List String → List String
  | [] => []
  | p :: rest => list_parameter_names s p depth ++ list_over_prefixes s depth rest

/-- Response built by DDSServerParameterSetup::handle_list_requests for
one request: with no prefixes answer with the empty prefix and the
request's depth, otherwise concatenate the per-prefix results. -/
def handle_list_request (s : ServerState) (req : ListParametersRequest) : ListParametersResponse :=
  { node_id := s.node_name, request_id := req.request_id,
    names := if req.prefixes.length = 0 then list_parameter_names s "" req.depth
             else list_over_prefixes s req.depth req.prefixes }

/-- Loop of DDSServerParameterSetup::default_set_handler over the
request's parameters: set each one and push one successful result. -/
def set_loop (s : ServerState) : List Parameter → ServerState × List SetParameterResult
  | [] => (s, [])
  | p :: rest =>
    let s2 := set_parameter s p
    let r := set_loop s2 rest
    (r.1, { successful := true, reason := "" } :: r.2)

/-- DDSServerParameterSetup::default_set_handler: store every request
parameter, build the response (node name, request id, one successful
result per parameter), then publish one event. -/
def default_set_handler (ts : Nat) (s : ServerState) (req : SetParametersRequest) :
    ServerState × SetParametersResponse × Option ParameterEvent :=
  let r := set_loop s req.parameters
  let pe := publish_event ts r.1
  (pe.2,
   { node_id := s.node_name, request_id := req.request_id, results := r.2 },
   pe.1)

/-- States of a DDSServerParameterSetup reachable from construction by
its state-modifying operations. -/
inductive Reachable : ServerState → Prop where
  | init (nn : String) : Reachable (initial_state nn)
  | set_param (s : ServerState) (p : Parameter) :
      Reachable s → Reachable (set_parameter s p)
  | set_params (ts : Nat) (s : ServerState) (ps : List Parameter) :
      Reachable s → Reachable (server_set_parameters ts s ps).2
  | delete (ts : Nat) (s : ServerState) (n : String) :
      Reachable s → Reachable (delete_parameter ts s n).2
  | set_handler (ts : Nat) (s : ServerState) (req : SetParametersRequest) :
      Reachable s → Reachable (default_set_handler ts s req).1
  | publish (ts : Nat) (s : ServerState) :
      Reachable s → Reachable (publish_event ts s).2

/-- Representation invariant of the std::map: keys strictly increasing,
and every entry is stored under the name of its parameter. -/
def MapInv (m : List (String × Parameter)) : Prop :=
  (m.map Prod.fst).Pairwise (· < ·) ∧ ∀ kp ∈ m, (kp.2).name = kp.1

/-! Client side: DDSClientParameterSetup. -/

/-- Inner loop of DDSClientParameterSetup::wait_for_response over one
take() batch: return the data of the first sample that is valid and
matches both the request id and the target node name. -/
def find_matching {α : Type} (reqIdOf : α → Nat) (nodeIdOf : α → String)
    (rid : Nat) (tgt : String) : List (Sample α) → Option α
  | [] => none
  | smp :: rest =>
    if smp.valid && (reqIdOf smp.data == rid) && (nodeIdOf smp.data == tgt) then
      some smp.data
    else find_matching reqIdOf nodeIdOf rid tgt rest

/-- DDSClientParameterSetup::wait_for_response.  The polling loop until
the deadline is modelled by the finite list of take() batches the loop
observes before the deadline passes; Except.error models the
std::runtime_error thrown on timeout. -/
def wait_for_response {α : Type} (reqIdOf : α → Nat) (nodeIdOf : α → String)
    (rid : Nat) (tgt : String) : List (List (Sample α)) → Except Unit α
  | [] => .error ()
  | batch :: later =>
    match find_matching reqIdOf nodeIdOf rid tgt batch with
    | some r => .ok r
    | none => wait_for_response reqIdOf nodeIdOf rid tgt later

/-- DDSClientParameterSetup::set_parameters: build the request with the
fresh request id, write it, and wait for a matching response. -/
def client_set_parameters (rid : Nat) (target : String) (params : List Parameter)
    (polls : List (List (Sample SetParametersResponse))) :
    SetParametersRequest × Except Unit SetParametersResponse :=
  ({ node_id := target, request_id := rid, parameters := params },
   wait_for_response SetParametersResponse.request_id SetParametersResponse.node_id
     rid target polls)

/-- DDSClientParameterSetup::get_parameters: build and write the
request, wait for a matching response, and return its parameters. -/
def client_get_parameters (rid : Nat) (target : String) (names : List String)
    (polls : List (List (Sample GetParametersResponse))) :
    GetParametersRequest × Except Unit (List Parameter) :=
  ({ node_id := target, request_id := rid, names := names },
   (wait_for_response GetParametersResponse.request_id GetParametersResponse.node_id
     rid target polls).map (fun resp => resp.parameters))

/-- DDSClientParameterSetup::list_parameters: build and write the
request, wait for a matching response, and return its names. -/
def client_list_parameters (rid : Nat) (target : String) (pres : List String)
    (depth : Nat) (polls : List (List (Sample ListParametersResponse))) :
    ListParametersRequest × Except Unit (List String) :=
  ({ node_id := target, request_id := rid, prefixes := pres, depth := depth },
   (wait_for_response ListParametersResponse.request_id ListParametersResponse.node_id
     rid target polls).map (fun resp => resp.names))

/-! Content filtered topics: the filter built by
DDSServerParameterSetup::setup_endpoints and its middleware-evaluated
predicate. -/

/-- Single-quote character used to build the filter parameter. -/
def squoteChar : Char := Char.ofNat 39

/-- Single-quote string used to build the filter parameter. -/
def squote : String := String.mk [squoteChar]

/-- Filter expression plus its parameter list, as passed to
dds::topic::Filter. -/
structure TopicFilter where
  expression : String
  parameters : List String
deriving DecidableEq, Repr

/-- Filter built in setup_endpoints: expression "node_id = %0" with the
single parameter being the node name wrapped in single quotes. -/
def server_request_filter (nn : String) : TopicFilter :=
  { expression := "node_id = %0", parameters := [squote ++ nn ++ squote] }

/-- Filters of the three request content-filtered topics created by
setup_endpoints. -/
structure ServerRequestFilters where
  set_request_filter : TopicFilter
  get_request_filter : TopicFilter
  list_request_filter : TopicFilter
deriving DecidableEq, Repr

/-- DDSServerParameterSetup::setup_endpoints registers all three request
readers on content-filtered topics built from one shared filter. -/
def setup_request_filters (nn : String) : ServerRequestFilters :=
  let f := server_request_filter nn
  { set_request_filter := f, get_request_filter := f, list_request_filter := f }

/-- Modelled from the spec: the middleware-side parsing of a quoted
string literal parameter of a content filter.  The vendor filter
evaluator is not in the repository; per the glossary a content-filtered
topic "filters incoming samples server-side (middleware-evaluated) by a
predicate".  A well-formed string literal is the literal text between
one leading and one trailing single quote, with no embedded quote. -/
def unquote (p : String) : Option String :=
  match p.data with
  | [] => none
  | c :: rest =>
    if c = squoteChar ∧ rest.getLast? = some squoteChar ∧ squoteChar ∉ rest.dropLast
    then some (String.mk rest.dropLast)
    else none

/-- Modelled from the spec: middleware evaluation of the filter
expression "node_id = %0" on a sample, comparing the sample's node_id
field with the string literal substituted for parameter %0.  The vendor
evaluator itself is not in the repository. -/
def cft_accepts (f : TopicFilter) (sample_node_id : String) : Bool :=
  if f.expression = "node_id = %0" then
    match f.parameters with
    | [p] =>
      match unquote p with
      | some lit => sample_node_id == lit
      | none => false
    | _ => false
  else false

/-! CLI argument parsing from burst_large_data_app/application.hpp. -/

/-- rti::config::Verbosity values used by set_verbosity. -/
inductive Verbosity where
  | SILENT
  | EXCEPTION
  | WARNING
  | STATUS_ALL
deriving DecidableEq, Repr

/-- application::ParseReturn. -/
inductive ParseReturn where
  | ok
  | failure
  | exit
deriving DecidableEq, Repr

/-- application::set_verbosity: switch on the integer value. -/
def set_verbosity (v : Int) : Verbosity :=
  if v = 0 then .SILENT
  else if v = 1 then .EXCEPTION
  else if v = 2 then .WARNING
  else if v = 3 then .STATUS_ALL
  else .EXCEPTION

/-- Whitespace recognized by C atoi (isspace in the C locale). -/
def isSpaceChar (c : Char) : Bool :=
  c = ' ' || c = Char.ofNat 9 || c = Char.ofNat 10 || c = Char.ofNat 11 ||
  c = Char.ofNat 12 || c = Char.ofNat 13

/-- Value of the leading decimal digits (atoi digit loop). -/
def digitsVal : List Char → Nat → Nat
  | [], acc => acc
  | c :: rest, acc =>
    if c.isDigit then digitsVal rest (acc * 10 + (c.toNat - 48)) else acc

/-- C atoi on a character list: skip whitespace, optional sign, then
the leading decimal digits; 0 when no digits. -/
def atoiChars (l : List Char) : Int :=
  match l.dropWhile isSpaceChar with
  | [] => 0
  | c :: rest =>
    if c = '-' then -(digitsVal rest 0 : Int)
    else if c = '+' then (digitsVal rest 0 : Int)
    else (digitsVal (c :: rest) 0 : Int)

/-- C atoi on a string. -/
def atoi (s : String) : Int := atoiChars s.data

/-- Conversion of the int returned by atoi to the unsigned int fields of
ApplicationArguments (reduction modulo 2^32). -/
def atoiUInt (s : String) : Nat := ((atoi s) % (4294967296 : Int)).toNat

/-- Local variables accumulated by application::parse_arguments. -/
structure ArgValues where
  domain_id : Nat
  verbosity : Verbosity
  qos_file_path : String
  send_rate : Nat
  burst_duration : Nat
deriving DecidableEq, Repr

/-- Modelled from the spec: domains::DEFAULT_DOMAIN_ID lives in
Definitions.hpp, which is not among the available sources; the usage
text printed by parse_arguments documents the default domain as 1. -/
def DEFAULT_DOMAIN_ID : Nat := 1

/-- Initial values of the locals of parse_arguments. -/
def default_arg_values : ArgValues :=
  { domain_id := DEFAULT_DOMAIN_ID,
    verbosity := .EXCEPTION,
    qos_file_path := "../../../../dds/qos/DDS_QOS_PROFILES.xml",
    send_rate := 100,
    burst_duration := 10 }

/-- application::ApplicationArguments. -/
structure ApplicationArguments where
  parse_result : ParseReturn
  domain_id : Nat
  verbosity : Verbosity
  qos_file_path : String
  send_rate : Nat
  burst_duration : Nat
deriving DecidableEq, Repr

/-- While loop of parse_arguments over the remaining tokens.  A
value-taking flag branch fires only when a following token exists
(argc > arg_processing + 1), consumes both tokens and overwrites its
field; the -h and --help flags stop with exit; any other token stops
with failure. -/
def parse_loop : ArgValues → List String → ArgValues × ParseReturn
  | acc, [] => (acc, .ok)
  | acc, a :: v :: rest =>
    if a = "-d" || a = "--domain" then
      parse_loop { acc with domain_id := atoiUInt v } rest
    else if a = "-v" || a = "--verbosity" then
      parse_loop { acc with verbosity := set_verbosity (atoi v) } rest
    else if a = "-q" || a = "--qos-file" then
      parse_loop { acc with qos_file_path := v } rest
    else if a = "-r" || a = "--send-rate" then
      parse_loop { acc with send_rate := atoiUInt v } rest
    else if a = "-b" || a = "--burst-duration" then
      parse_loop { acc with burst_duration := atoiUInt v } rest
    else if a = "-h" || a = "--help" then (acc, .exit)
    else (acc, .failure)
  | acc, [a] =>
    if a = "-h" || a = "--help" then (acc, .exit) else (acc, .failure)

/-- application::parse_arguments on the argument list after the program
name. -/
def parse_arguments (argv : List String) : ApplicationArguments :=
  let r := parse_loop default_arg_values argv
  { parse_result := r.2,
    domain_id := r.1.domain_id,
    verbosity := r.1.verbosity,
    qos_file_path := r.1.qos_file_path,
    send_rate := r.1.send_rate,
    burst_duration := r.1.burst_duration }

/-! Claim-side formulation of the argument parser (C5), written from
the claim's wording: a table of recognized value-taking flags, each
consuming two tokens and overwriting one field; help stops with exit;
anything else stops with failure. -/

/-- Recognized value-taking flags of the claim. -/
inductive CFlag where
  | domain
  | verbosity
  | qosFile
  | sendRate
  | burstDuration
deriving DecidableEq, Repr

/-- Claim-side flag recognition. -/
def flagOf (t : String) : Option CFlag :=
  if t = "-d" || t = "--domain" then some .domain
  else if t = "-v" || t = "--verbosity" then some .verbosity
  else if t = "-q" || t = "--qos-file" then some .qosFile
  else if t = "-r" || t = "--send-rate" then some .sendRate
  else if t = "-b" || t = "--burst-duration" then some .burstDuration
  else none

/-- Claim-side field update: numeric values via atoi, the verbosity
value through the 0, 1, 2, 3 mapping, the QoS path verbatim. -/
def applyFlag : CFlag → String → ArgValues → ArgValues
  | .domain, v, acc => { acc with domain_id := atoiUInt v }
  | .verbosity, v, acc => { acc with verbosity := set_verbosity (atoi v) }
  | .qosFile, v, acc => { acc with qos_file_path := v }
  | .sendRate, v, acc => { acc with send_rate := atoiUInt v }
  | .burstDuration, v, acc => { acc with burst_duration := atoiUInt v }

/-- Claim-side help recognition. -/
def isHelpFlag (t : String) : Bool := t = "-h" || t = "--help"

/-- Claim-side parser: each recognized flag followed by a value consumes
two tokens and overwrites the corresponding field; help stops parsing
with exit; any other token, including a recognized value-taking flag
with no following token, stops with failure, keeping the values
accumulated so far. -/
def claimedParse : ArgValues → List String → ArgValues × ParseReturn
  | acc, [] => (acc, .ok)
  | acc, t :: rest =>
    if isHelpFlag t then (acc, .exit)
    else
      match flagOf t, rest with
      | some f, v :: rest2 => claimedParse (applyFlag f v acc) rest2
      | some _, [] => (acc, .failure)
      | none, _ => (acc, .failure)

/-! YAML loading (DDSParameterUtils::load_from_yaml).  The yaml-cpp
library is external; a parameter entry of the file is modelled by the
results of the conversions the loader can ask of it, where none models
a conversion that raises a YAML exception. -/

/-- Conversion results offered by one entry of the "parameters" list of
the YAML file: node["name"] and node["type"] as strings, and
node["value"] under each of the eight conversions the loader uses. -/
structure YamlParamNode where
  nameVal : Option String
  typeVal : Option String
  asString : Option String
  asDouble : Option CDouble
  asInteger : Option Int
  asBool : Option Bool
  asStringArray : Option (List String)
  asDoubleArray : Option (List CDouble)
  asIntegerArray : Option (List Int)
  asBoolArray : Option (List Bool)
deriving DecidableEq, Repr

/-- Outcome of YAML::LoadFile plus the config["parameters"] check:
loading can fail, the key can be absent, or it yields the entry list. -/
inductive YamlLoadResult where
  | loadError
  | noParameters
  | parameters (nodes : List YamlParamNode)
deriving DecidableEq, Repr

/-- DDSParameterUtils::make_parameter for a string value. -/
def makeParameterString (name : String) (v : String) : Parameter :=
  { name := name, value := .string_value v }

/-- DDSParameterUtils::make_parameter for a double value. -/
def makeParameterDouble (name : String) (v : CDouble) : Parameter :=
  { name := name, value := .double_value v }

/-- DDSParameterUtils::make_parameter for an int64 value. -/
def makeParameterInteger (name : String) (v : Int) : Parameter :=
  { name := name, value := .integer_value v }

/-- DDSParameterUtils::make_parameter for a bool value. -/
def makeParameterBool (name : String) (v : Bool) : Parameter :=
  { name := name, value := .bool_value v }

/-- DDSParameterUtils::make_parameter for a string vector. -/
def makeParameterStringArray (name : String) (v : List String) : Parameter :=
  { name := name, value := .string_array_value v }

/-- DDSParameterUtils::make_parameter for a double vector. -/
def makeParameterDoubleArray (name : String) (v : List CDouble) : Parameter :=
  { name := name, value := .double_array_value v }

/-- DDSParameterUtils::make_parameter for an int64 vector. -/
def makeParameterIntegerArray (name : String) (v : List Int) : Parameter :=
  { name := name, value := .integer_array_value v }

/-- DDSParameterUtils::make_parameter for a bool vector. -/
def makeParameterBoolArray (name : String) (v : List Bool) : Parameter :=
  { name := name, value := .bool_array_value v }

/-- Loop of load_from_yaml over the entries, in the try block: a none
conversion raises, and the catch returns the parameters accumulated so
far (acc); a recognized type appends the converted parameter; any other
type string falls through to the next entry. -/
def yaml_go (acc : List Parameter) : List YamlParamNode → List Parameter
  | [] => acc
  | node :: rest =>
    match node.nameVal with
    | none => acc
    | some name =>
      match node.typeVal with
      | none => acc
      | some ty =>
        if ty = "string" then
          match node.asString with
          | none => acc
          | some v => yaml_go (acc ++ [makeParameterString name v]) rest
        else if ty = "double" then
          match node.asDouble with
          | none => acc
          | some v => yaml_go (acc ++ [makeParameterDouble name v]) rest
        else if ty = "integer" then
          match node.asInteger with
          | none => acc
          | some v => yaml_go (acc ++ [makeParameterInteger name v]) rest
        else if ty = "bool" then
          match node.asBool with
          | none => acc
          | some v => yaml_go (acc ++ [makeParameterBool name v]) rest
        else if ty = "string_array" then
          match node.asStringArray with
          | none => acc
          | some v => yaml_go (acc ++ [makeParameterStringArray name v]) rest
        else if ty = "double_array" then
          match node.asDoubleArray with
          | none => acc
          | some v => yaml_go (acc ++ [makeParameterDoubleArray name v]) rest
        else if ty = "integer_array" then
          match node.asIntegerArray with
          | none => acc
          | some v => yaml_go (acc ++ [makeParameterIntegerArray name v]) rest
        else if ty = "bool_array" then
          match node.asBoolArray with
          | none => acc
          | some v => yaml_go (acc ++ [makeParameterBoolArray name v]) rest
        else yaml_go acc rest

/-- DDSParameterUtils::load_from_yaml: empty on load failure or a
missing "parameters" key, else the entry loop starting from the empty
accumulator. -/
def load_from_yaml : YamlLoadResult → List Parameter
  | .loadError => []
  | .noParameters => []
  | .parameters nodes => yaml_go [] nodes

/-- Claim-side outcome of one YAML entry: none when processing the
entry raises a YAML exception, some none when its type string is
unrecognized and the entry is skipped, some (some p) when it yields a
parameter carrying the entry's name and the value tagged with the
variant matching its type string. -/
def nodeOutcome (node : YamlParamNode) : Option (Option Parameter) :=
  match node.nameVal with
  | none => none
  | some name =>
    match node.typeVal with
    | none => none
    | some ty =>
      if ty = "string" then
        (node.asString).map (fun v => some (makeParameterString name v))
      else if ty = "double" then
        (node.asDouble).map (fun v => some (makeParameterDouble name v))
      else if ty = "integer" then
        (node.asInteger).map (fun v => some (makeParameterInteger name v))
      else if ty = "bool" then
        (node.asBool).map (fun v => some (makeParameterBool name v))
      else if ty = "string_array" then
        (node.asStringArray).map (fun v => some (makeParameterStringArray name v))
      else if ty = "double_array" then
        (node.asDoubleArray).map (fun v => some (makeParameterDoubleArray name v))
      else if ty = "integer_array" then
        (node.asIntegerArray).map (fun v => some (makeParameterIntegerArray name v))
      else if ty = "bool_array" then
        (node.asBoolArray).map (fun v => some (makeParameterBoolArray name v))
      else some none

/-- Claim-side: the last parameter of a request that carries a given
name (the one whose stored value survives, each set overwriting the
previous one). -/
def lastWithName (n : String) : List Parameter → Option Parameter
  | [] => none
  | p :: rest =>
    match lastWithName n rest with
    | some q => some q
    | none => if p.name = n then some p else none

/-! Concrete fixtures used by the witness theorems. -/

/-- Sample parameter named a. -/
def pA : Parameter := { name := "a", value := .integer_value 1 }

/-- Sample parameter with a dotted name. -/
def pB : Parameter := { name := "b.c", value := .bool_value true }

/-- Server state holding the two sample parameters. -/
def stAB : ServerState :=
  { node_name := "srv", parameters := [("a", pA), ("b.c", pB)],
    pending_new := [], pending_changed := [], pending_deleted := [] }

/-- Server state with one pending-new parameter. -/
def stPend : ServerState :=
  { node_name := "srv", parameters := [], pending_new := [pA],
    pending_changed := [], pending_deleted := [] }

/-- Event expected from publishing stPend. -/
def evW : ParameterEvent :=
  { node_id := "srv", timestamp_ns := 7, new_parameters := [pA],
    changed_parameters := [], deleted_parameters := [] }

/-- State built by two set_parameter calls from a fresh server. -/
def s10 : ServerState := set_parameter (set_parameter (initial_state "srv") pB) pA

/-- Sample get request asking for two present names and one absent. -/
def reqGetW : GetParametersRequest :=
  { node_id := "srv", request_id := 5, names := ["b.c", "zzz", "a"] }

/-- Second sample get request, delivered as an invalid sample. -/
def reqGetW2 : GetParametersRequest :=
  { node_id := "srv", request_id := 6, names := ["a"] }

/-- Sample set request with one parameter. -/
def reqSetW : SetParametersRequest :=
  { node_id := "srv", request_id := 9, parameters := [pA] }

/-- Sample list request without prefixes. -/
def reqListW : ListParametersRequest :=
  { node_id := "srv", request_id := 1, prefixes := [], depth := 0 }

/-- Sample set response matching request id 3 from node srv. -/
def respW : SetParametersResponse :=
  { node_id := "srv", request_id := 3, results := [] }

/-- Poll batches: one empty take, then one holding the matching sample. -/
def spollsW : List (List (Sample SetParametersResponse)) :=
  [[], [{ valid := true, data := respW }]]

/-- YAML entry with a recognized string type. -/
def yn1 : YamlParamNode :=
  { nameVal := some "x", typeVal := some "string", asString := some "v",
    asDouble := none, asInteger := none, asBool := none, asStringArray := none,
    asDoubleArray := none, asIntegerArray := none, asBoolArray := none }

/-- YAML entry with an unrecognized type string. -/
def yn2 : YamlParamNode :=
  { nameVal := some "y", typeVal := some "weird", asString := none,
    asDouble := none, asInteger := none, asBool := none, asStringArray := none,
    asDoubleArray := none, asIntegerArray := none, asBoolArray := none }

/-- YAML entry whose bool value conversion raises. -/
def yn3 : YamlParamNode :=
  { nameVal := some "z", typeVal := some "bool", asString := none,
    asDouble := none, asInteger := none, asBool := none, asStringArray := none,
    asDoubleArray := none, asIntegerArray := none, asBoolArray := none }

theorem mapFind_mapInsert (k : String) (v : Parameter)
    (m : List (String × Parameter)) (n : String) :
    mapFind (mapInsert k v m) n = if n = k then some v else mapFind m n := by
  induction m with
  | nil => simp [mapInsert, mapFind]
  | cons hd rest ih =>
    obtain ⟨k2, v2⟩ := hd
    by_cases h1 : k < k2
    · simp only [mapInsert, if_pos h1, mapFind]
    · by_cases h2 : k = k2
      · subst h2
        simp only [mapInsert, if_neg h1, if_pos rfl, mapFind]
        by_cases h3 : n = k <;> simp [h3]
      · simp only [mapInsert, if_neg h1, if_neg h2, mapFind]
        by_cases h3 : n = k2
        · subst h3
          have : ¬ n = k := fun h => h2 h.symm
          simp [this]
        · simp [h3, ih]

theorem mapFind_eq_none_of_not_mem (m : List (String × Parameter)) (k : String)
    (h : k ∉ m.map Prod.fst) : mapFind m k = none := by
  induction m with
  | nil => rfl
  | cons hd rest ih =>
    obtain ⟨k2, v2⟩ := hd
    simp only [List.map_cons, List.mem_cons] at h
    push_neg at h
    simp only [mapFind, if_neg h.1]
    exact ih h.2

theorem mem_fst_mapInsert (k : String) (v : Parameter)
    (m : List (String × Parameter)) (b : String)
    (h : b ∈ (mapInsert k v m).map Prod.fst) : b = k ∨ b ∈ m.map Prod.fst := by
  induction m with
  | nil => simpa [mapInsert] using h
  | cons hd rest ih =>
    obtain ⟨k2, v2⟩ := hd
    by_cases h1 : k < k2
    · simp only [mapInsert, if_pos h1, List.map_cons, List.mem_cons] at h
      rcases h with h | h | h
      · exact Or.inl h
      · exact Or.inr (by simp [h])
      · exact Or.inr (by simp [h])
    · by_cases h2 : k = k2
      · simp only [mapInsert, if_neg h1, if_pos h2, List.map_cons, List.mem_cons] at h
        rcases h with h | h
        · exact Or.inl h
        · exact Or.inr (by simp [h])
      · simp only [mapInsert, if_neg h1, if_neg h2, List.map_cons, List.mem_cons] at h
        rcases h with h | h
        · exact Or.inr (by simp [h])
        · rcases ih h with h3 | h3
          · exact Or.inl h3
          · exact Or.inr (by simp [h3])

theorem pairwise_mapInsert (k : String) (v : Parameter)
    (m : List (String × Parameter))
    (h : (m.map Prod.fst).Pairwise (· < ·)) :
    ((mapInsert k v m).map Prod.fst).Pairwise (· < ·) := by
  induction m with
  | nil => simp [mapInsert]
  | cons hd rest ih =>
    obtain ⟨k2, v2⟩ := hd
    simp only [List.map_cons, List.pairwise_cons] at h
    by_cases h1 : k < k2
    · simp only [mapInsert, if_pos h1, List.map_cons, List.pairwise_cons]
      refine ⟨?_, h.1, h.2⟩
      intro b hb
      simp only [List.mem_cons] at hb
      rcases hb with hb | hb
      · exact hb ▸ h1
      · exact lt_trans h1 (h.1 b hb)
    · by_cases h2 : k = k2
      · subst h2
        have he : mapInsert k v ((k, v2) :: rest) = (k, v) :: rest := by
          simp [mapInsert, h1]
        rw [he]
        simp only [List.map_cons, List.pairwise_cons]
        exact h
      · have h3 : k2 < k := lt_of_le_of_ne (not_lt.mp h1) (fun e => h2 e.symm)
        simp only [mapInsert, if_neg h1, if_neg h2, List.map_cons, List.pairwise_cons]
        refine ⟨?_, ih h.2⟩
        intro b hb
        rcases mem_fst_mapInsert k v rest b hb with hb2 | hb2
        · exact hb2 ▸ h3
        · exact h.1 b hb2

theorem mem_mapInsert (k : String) (v : Parameter)
    (m : List (String × Parameter)) (kp : String × Parameter)
    (h : kp ∈ mapInsert k v m) : kp = (k, v) ∨ kp ∈ m := by
  induction m with
  | nil => simpa [mapInsert] using h
  | cons hd rest ih =>
    obtain ⟨k2, v2⟩ := hd
    by_cases h1 : k < k2
    · simp only [mapInsert, if_pos h1, List.mem_cons] at h
      rcases h with h | h | h
      · exact Or.inl h
      · exact Or.inr (by simp [h])
      · exact Or.inr (by simp [h])
    · by_cases h2 : k = k2
      · simp only [mapInsert, if_neg h1, if_pos h2, List.mem_cons] at h
        rcases h with h | h
        · exact Or.inl h
        · exact Or.inr (by simp [h])
      · simp only [mapInsert, if_neg h1, if_neg h2, List.mem_cons] at h
        rcases h with h | h
        · exact Or.inr (by simp [h])
        · rcases ih h with h3 | h3
          · exact Or.inl h3
          · exact Or.inr (by simp [h3])

theorem mapErase_sublist (m : List (String × Parameter)) (k : String) :
    (mapErase m k).Sublist m := by
  induction m with
  | nil => simp [mapErase]
  | cons hd rest ih =>
    obtain ⟨k2, v2⟩ := hd
    by_cases h1 : k = k2
    · simp [mapErase, h1]
    · simpa [mapErase, h1] using List.Sublist.cons₂ (k2, v2) ih

theorem mapFind_mapErase_self (m : List (String × Parameter)) (k : String)
    (h : (m.map Prod.fst).Pairwise (· < ·)) :
    mapFind (mapErase m k) k = none := by
  induction m with
  | nil => rfl
  | cons hd rest ih =>
    obtain ⟨k2, v2⟩ := hd
    simp only [List.map_cons, List.pairwise_cons] at h
    by_cases h1 : k = k2
    · subst h1
      simp only [mapErase, if_pos rfl]
      apply mapFind_eq_none_of_not_mem
      intro hmem
      exact lt_irrefl k (h.1 k hmem)
    · simp only [mapErase, if_neg h1, mapFind, if_neg h1]
      exact ih h.2

theorem mapFind_mapErase_ne (m : List (String × Parameter)) (k n : String)
    (h : n ≠ k) : mapFind (mapErase m k) n = mapFind m n := by
  induction m with
  | nil => rfl
  | cons hd rest ih =>
    obtain ⟨k2, v2⟩ := hd
    by_cases h1 : k = k2
    · subst h1
      have he : mapErase ((k, v2) :: rest) k = rest := by simp [mapErase]
      rw [he]
      simp [mapFind, h]
    · simp only [mapErase, if_neg h1, mapFind]
      by_cases h2 : n = k2
      · simp [h2]
      · simp [h2, ih]

theorem mapInv_mapInsert (m : List (String × Parameter)) (p : Parameter)
    (h : MapInv m) : MapInv (mapInsert p.name p m) := by
  refine ⟨pairwise_mapInsert p.name p m h.1, ?_⟩
  intro kp hkp
  rcases mem_mapInsert p.name p m kp hkp with h2 | h2
  · simp [h2]
  · exact h.2 kp h2

theorem mapInv_set_parameter (s : ServerState) (p : Parameter)
    (h : MapInv s.parameters) : MapInv (set_parameter s p).parameters := by
  unfold set_parameter
  by_cases h2 : (mapFind s.parameters p.name).isNone <;>
    simp [h2, mapInv_mapInsert s.parameters p h]

theorem mapInv_set_loop (ps : List Parameter) (s : ServerState)
    (h : MapInv s.parameters) : MapInv (set_loop s ps).1.parameters := by
  induction ps generalizing s with
  | nil => exact h
  | cons p rest ih =>
    simp only [set_loop]
    exact ih (set_parameter s p) (mapInv_set_parameter s p h)

theorem mapInv_foldl_set (ps : List Parameter) (s : ServerState)
    (h : MapInv s.parameters) : MapInv (ps.foldl set_parameter s).parameters := by
  induction ps generalizing s with
  | nil => exact h
  | cons p rest ih =>
    simp only [List.foldl_cons]
    exact ih (set_parameter s p) (mapInv_set_parameter s p h)

theorem publish_event_parameters (ts : Nat) (s : ServerState) :
    (publish_event ts s).2.parameters = s.parameters := by
  unfold publish_event
  by_cases h : s.pending_new.isEmpty && s.pending_changed.isEmpty && s.pending_deleted.isEmpty <;>
    simp [h]

theorem mapInv_mapErase (m : List (String × Parameter)) (k : String)
    (h : MapInv m) : MapInv (mapErase m k) := by
  refine ⟨?_, ?_⟩
  · exact List.Pairwise.sublist ((mapErase_sublist m k).map Prod.fst) h.1
  · intro kp hkp
    exact h.2 kp ((mapErase_sublist m k).mem hkp)

theorem mapInv_reachable (s : ServerState) (h : Reachable s) : MapInv s.parameters := by
  induction h with
  | init nn => exact ⟨List.Pairwise.nil, by intro kp hkp; cases hkp⟩
  | set_param s p _ ih => exact mapInv_set_parameter s p ih
  | set_params ts s ps _ ih =>
    unfold server_set_parameters
    rw [publish_event_parameters]
    exact mapInv_foldl_set ps s ih
  | delete ts s n _ ih =>
    unfold delete_parameter
    rw [publish_event_parameters]
    cases hf : mapFind s.parameters n with
    | some p => simpa [hf] using mapInv_mapErase s.parameters n ih
    | none => simpa [hf] using ih
  | set_handler ts s req _ ih =>
    unfold default_set_handler
    simp only
    rw [publish_event_parameters]
    exact mapInv_set_loop req.parameters s ih
  | publish ts s _ ih =>
    rw [publish_event_parameters]
    exact ih

/-! Helper lemmas. -/

theorem get_request_params_eq (s : ServerState) (names : List String) :
    get_request_params s names = names.filterMap (fun n => mapFind s.parameters n) := by
  induction names with
  | nil => rfl
  | cons n rest ih =>
    cases hf : mapFind s.parameters n with
    | some p =>
      simp [get_request_params, has_parameter, get_parameter, hf, List.filterMap_cons, ih]
    | none =>
      simp [get_request_params, has_parameter, get_parameter, hf, List.filterMap_cons, ih]

theorem list_names_go_eq_filter (pre : String) (depth : Nat)
    (m : List (String × Parameter)) :
    list_names_go pre depth m =
      (m.map Prod.fst).filter
        (fun n => decide ((pre = "" ∨ pre.data.isPrefixOf n.data = true) ∧
                          (0 < depth → countDots n < depth))) := by
  induction m with
  | nil => rfl
  | cons hd rest ih =>
    obtain ⟨k, v⟩ := hd
    by_cases hp : (pre = "" || pre.data.isPrefixOf k.data) = true
    · by_cases hdep : (depth > 0 && decide (countDots k ≥ depth)) = true
      · have hcond : ¬((pre = "" ∨ pre.data.isPrefixOf k.data = true) ∧
            (0 < depth → countDots k < depth)) := by
          simp only [Bool.and_eq_true, decide_eq_true_eq] at hdep
          intro hc
          exact absurd (hc.2 hdep.1) (not_lt.mpr hdep.2)
        simp only [list_names_go, if_pos hp, if_pos hdep, List.map_cons, List.filter_cons]
        simp only [decide_eq_true_eq]
        rw [if_neg (by simpa using hcond)]
        exact ih
      · have hcond : (pre = "" ∨ pre.data.isPrefixOf k.data = true) ∧
            (0 < depth → countDots k < depth) := by
          constructor
          · simpa [Bool.or_eq_true, decide_eq_true_eq] using hp
          · intro hdp
            simp only [Bool.and_eq_true, decide_eq_true_eq, not_and, not_le] at hdep
            exact hdep hdp
        simp only [list_names_go, if_pos hp, if_neg hdep, List.map_cons, List.filter_cons]
        simp only [decide_eq_true_eq]
        rw [if_pos (by simpa using hcond)]
        rw [ih]
    · have hcond : ¬((pre = "" ∨ pre.data.isPrefixOf k.data = true) ∧
          (0 < depth → countDots k < depth)) := by
        intro hc
        apply hp
        rcases hc.1 with h2 | h2
        · simp [h2]
        · simp [h2]
      simp only [list_names_go, if_neg hp, List.map_cons, List.filter_cons]
      simp only [decide_eq_true_eq]
      rw [if_neg (by simpa using hcond)]
      exact ih

theorem list_over_prefixes_eq (s : ServerState) (depth : Nat) (ps : List String) :
    list_over_prefixes s depth ps =
      (ps.map (fun p => list_parameter_names s p depth)).flatten := by
  induction ps with
  | nil => rfl
  | cons p rest ih => simp [list_over_prefixes, ih]

/-! Claim theorems C1 and C3. -/

/-- C1: for every GetParametersRequest sample taken and found valid by
handle_get_requests, the server writes exactly one GetParametersResponse
whose request_id equals the request's request_id, whose node_id is the
server's node name, and whose parameters are exactly the stored
parameters of the requested names present in the store, in request
order, with absent names silently omitted. -/
theorem c1_get_request_handler (s : ServerState)
    (samples : List (Sample GetParametersRequest)) :
    handle_get_requests s samples =
      (samples.filter (fun smp => smp.valid)).map (fun smp =>
        { node_id := s.node_name,
          request_id := smp.data.request_id,
          parameters := smp.data.names.filterMap (fun n => mapFind s.parameters n) }) := by
  induction samples with
  | nil => rfl
  | cons smp rest ih =>
    by_cases hv : smp.valid
    · simp only [handle_get_requests, if_pos hv, List.filter_cons, hv, List.map_cons, ih]
      simp [handle_get_request, get_request_params_eq]
    · have hv2 : smp.valid = false := by simpa using hv
      simp [handle_get_requests, hv2, List.filter_cons, ih]

/-- C3: list_parameter_names returns exactly the stored names that start
with the prefix at position 0 (all names for the empty prefix) and,
when depth > 0, have strictly fewer than depth dot characters; and
handle_list_requests answers a request without prefixes using the empty
prefix and the request's depth, a request with prefixes by concatenating
the per-prefix results in prefix order, echoing the request id and the
server's node name. -/
theorem c3_list_parameter_names (s : ServerState) (pre : String) (depth : Nat)
    (req : ListParametersRequest) :
    (list_parameter_names s pre depth =
      (s.parameters.map Prod.fst).filter
        (fun n => decide ((pre = "" ∨ pre.data.isPrefixOf n.data = true) ∧
                          (0 < depth → countDots n < depth))))
  ∧ handle_list_request s req =
      { node_id := s.node_name, request_id := req.request_id,
        names := if req.prefixes = [] then list_parameter_names s "" req.depth
                 else (req.prefixes.map (fun p => list_parameter_names s p req.depth)).flatten } := by
  constructor
  · exact list_names_go_eq_filter pre depth s.parameters
  · unfold handle_list_request
    by_cases h : req.prefixes = []
    · simp [h]
    · have h2 : ¬ req.prefixes.length = 0 := by simpa [List.length_eq_zero] using h
      simp [h, h2, list_over_prefixes_eq]

theorem set_loop_results (ps : List Parameter) (s : ServerState) :
    (set_loop s ps).2 = ps.map (fun _ => { successful := true, reason := "" }) := by
  induction ps generalizing s with
  | nil => rfl
  | cons p rest ih => simp [set_loop, ih]

theorem set_parameter_find (s : ServerState) (p : Parameter) (n : String) :
    mapFind (set_parameter s p).parameters n =
      if n = p.name then some p else mapFind s.parameters n := by
  unfold set_parameter
  by_cases h : (mapFind s.parameters p.name).isNone <;>
    simp [h, mapFind_mapInsert]

theorem set_loop_find (ps : List Parameter) (s : ServerState) (n : String) :
    mapFind (set_loop s ps).1.parameters n =
      match lastWithName n ps with
      | some q => some q
      | none => mapFind s.parameters n := by
  induction ps generalizing s with
  | nil => rfl
  | cons p rest ih =>
    simp only [set_loop, lastWithName]
    rw [ih]
    cases hlast : lastWithName n rest with
    | some q => simp
    | none =>
      simp only
      rw [set_parameter_find]
      by_cases h : p.name = n
      · simp [h]
      · have h2 : ¬ n = p.name := fun e => h e.symm
        simp [h, h2]

/-- C2: the default set handler stores every request parameter under its
name, overwriting existing ones; the response carries the server's node
name, the request's request_id and one successful result with empty
reason per request parameter; and set_parameter records the parameter
as pending-new exactly when the name was absent and as pending-changed
otherwise. -/
theorem c2_default_set_handler (ts : Nat) (s : ServerState)
    (req : SetParametersRequest) (p : Parameter) (n : String) :
    ((default_set_handler ts s req).2.1.node_id = s.node_name)
  ∧ ((default_set_handler ts s req).2.1.request_id = req.request_id)
  ∧ ((default_set_handler ts s req).2.1.results =
       req.parameters.map (fun _ => { successful := true, reason := "" }))
  ∧ (mapFind (default_set_handler ts s req).1.parameters n =
       match lastWithName n req.parameters with
       | some q => some q
       | none => mapFind s.parameters n)
  ∧ (has_parameter s p.name = false →
       (set_parameter s p).pending_new = s.pending_new ++ [p] ∧
       (set_parameter s p).pending_changed = s.pending_changed ∧
       mapFind (set_parameter s p).parameters p.name = some p)
  ∧ (has_parameter s p.name = true →
       (set_parameter s p).pending_changed = s.pending_changed ++ [p] ∧
       (set_parameter s p).pending_new = s.pending_new ∧
       mapFind (set_parameter s p).parameters p.name = some p) := by
  refine ⟨rfl, rfl, set_loop_results req.parameters s, ?_, ?_, ?_⟩
  · show mapFind (publish_event ts (set_loop s req.parameters).1).2.parameters n = _
    rw [publish_event_parameters]
    exact set_loop_find req.parameters s n
  · intro h
    have h2 : (mapFind s.parameters p.name).isNone := by
      simpa [has_parameter, Option.isNone_iff_eq_none, Option.isSome_iff_ne_none] using h
    refine ⟨?_, ?_, ?_⟩
    · simp [set_parameter, h2]
    · simp [set_parameter, h2]
    · rw [set_parameter_find]
      simp
  · intro h
    have h2 : ¬ (mapFind s.parameters p.name).isNone := by
      simp only [has_parameter] at h
      simp [Option.isNone_iff_eq_none, Option.isSome_iff_ne_none] at h ⊢
      exact h
    refine ⟨?_, ?_, ?_⟩
    · simp [set_parameter, h2]
    · simp [set_parameter, h2]
    · rw [set_parameter_find]
      simp

/-- C8: publish_event writes a ParameterEvent exactly when one of the
three pending lists is non-empty; a written event carries the server's
node name and exactly the three pending lists; and after publish_event
all three pending lists are empty in every case. -/
theorem c8_publish_event (ts : Nat) (s : ServerState) (e : ParameterEvent) :
    ((publish_event ts s).1.isSome ↔
       ¬(s.pending_new = [] ∧ s.pending_changed = [] ∧ s.pending_deleted = []))
  ∧ ((publish_event ts s).1 = some e →
       e.node_id = s.node_name ∧ e.new_parameters = s.pending_new ∧
       e.changed_parameters = s.pending_changed ∧
       e.deleted_parameters = s.pending_deleted)
  ∧ (publish_event ts s).2.pending_new = []
  ∧ (publish_event ts s).2.pending_changed = []
  ∧ (publish_event ts s).2.pending_deleted = [] := by
  by_cases h : (s.pending_new.isEmpty && s.pending_changed.isEmpty &&
      s.pending_deleted.isEmpty) = true
  · have h2 : s.pending_new = [] ∧ s.pending_changed = [] ∧ s.pending_deleted = [] := by
      simp only [Bool.and_eq_true, List.isEmpty_iff] at h
      exact ⟨h.1.1, h.1.2, h.2⟩
    refine ⟨?_, ?_, ?_, ?_, ?_⟩ <;>
      simp [publish_event, h, h2.1, h2.2.1, h2.2.2]
  · have h2 : ¬(s.pending_new = [] ∧ s.pending_changed = [] ∧ s.pending_deleted = []) := by
      intro hc
      exact h (by simp [List.isEmpty_iff, hc.1, hc.2.1, hc.2.2])
    refine ⟨?_, ?_, ?_, ?_, ?_⟩
    · simp [publish_event, h, h2]
    · intro he
      simp only [publish_event, if_neg h] at he
      cases he
      exact ⟨rfl, rfl, rfl, rfl⟩
    · simp [publish_event, h]
    · simp [publish_event, h]
    · simp [publish_event, h]

/-- C9: delete_parameter removes the name from the store, leaves every
other stored parameter unchanged, and records the previously stored
parameter as deleted exactly when the name was present: when present,
the published event's deleted list is the pending-deleted list extended
by that parameter (previously pending changes are flushed with it);
when absent, the call is exactly a publish_event on the unchanged
state. -/
theorem c9_delete_parameter (ts : Nat) (s : ServerState) (name : String)
    (p : Parameter) (n : String)
    (h : (s.parameters.map Prod.fst).Pairwise (· < ·)) :
    (mapFind (delete_parameter ts s name).2.parameters name = none)
  ∧ (n ≠ name → mapFind (delete_parameter ts s name).2.parameters n = mapFind s.parameters n)
  ∧ (mapFind s.parameters name = some p →
       (delete_parameter ts s name).1 =
         some { node_id := s.node_name, timestamp_ns := ts,
                new_parameters := s.pending_new,
                changed_parameters := s.pending_changed,
                deleted_parameters := s.pending_deleted ++ [p] })
  ∧ (mapFind s.parameters name = none → delete_parameter ts s name = publish_event ts s) := by
  cases hf : mapFind s.parameters name with
  | some q =>
    have hne : (s.pending_deleted ++ [q]).isEmpty = false := by simp
    refine ⟨?_, ?_, ?_, ?_⟩
    · unfold delete_parameter
      rw [hf]
      simp only [publish_event_parameters]
      exact mapFind_mapErase_self s.parameters name h
    · intro hn
      unfold delete_parameter
      rw [hf]
      simp only [publish_event_parameters]
      exact mapFind_mapErase_ne s.parameters name n hn
    · intro hp
      cases hp
      unfold delete_parameter
      rw [hf]
      simp [publish_event, hne]
    · intro hp
      cases hp
  | none =>
    have heq : delete_parameter ts s name = publish_event ts s := by
      unfold delete_parameter
      rw [hf]
    refine ⟨?_, ?_, ?_, ?_⟩
    · rw [heq, publish_event_parameters, hf]
    · intro _
      rw [heq, publish_event_parameters]
    · intro hp
      cases hp
    · intro _
      exact heq

/-- C10: get_all_parameters and list_parameter_names return their
entries in strictly increasing lexicographic name order with no
duplicates, in every state the server can reach, whatever the order in
which parameters were set. -/
theorem c10_sorted_output (s : ServerState) (pre : String) (d : Nat)
    (h : Reachable s) :
    ((get_all_parameters s).map Parameter.name).Pairwise (· < ·)
  ∧ ((get_all_parameters s).map Parameter.name).Nodup
  ∧ (list_parameter_names s pre d).Pairwise (· < ·)
  ∧ (list_parameter_names s pre d).Nodup := by
  have inv := mapInv_reachable s h
  have hmap : (get_all_parameters s).map Parameter.name = s.parameters.map Prod.fst := by
    unfold get_all_parameters
    rw [List.map_map]
    exact List.map_congr_left (fun kp hkp => inv.2 kp hkp)
  have hkeys : ((get_all_parameters s).map Parameter.name).Pairwise (· < ·) := by
    rw [hmap]
    exact inv.1
  have hlist : (list_parameter_names s pre d).Pairwise (· < ·) := by
    unfold list_parameter_names
    rw [list_names_go_eq_filter]
    exact List.Pairwise.sublist (List.filter_sublist _) inv.1
  exact ⟨hkeys, hkeys.imp (fun hab => ne_of_lt hab),
         hlist, hlist.imp (fun hab => ne_of_lt hab)⟩

theorem find_matching_none_iff {α : Type} (ri : α → Nat) (ni : α → String)
    (rid : Nat) (tgt : String) (batch : List (Sample α)) :
    find_matching ri ni rid tgt batch = none ↔
      ∀ smp ∈ batch, ¬(smp.valid = true ∧ ri smp.data = rid ∧ ni smp.data = tgt) := by
  induction batch with
  | nil => simp [find_matching]
  | cons smp rest ih =>
    by_cases hc : (smp.valid && (ri smp.data == rid) && (ni smp.data == tgt)) = true
    · have hcP : smp.valid = true ∧ ri smp.data = rid ∧ ni smp.data = tgt := by
        simpa only [Bool.and_eq_true, beq_iff_eq, and_assoc] using hc
      simp only [find_matching, if_pos hc]
      constructor
      · intro habs
        cases habs
      · intro hall
        exact absurd hcP (hall smp (List.mem_cons_self smp rest))
    · have hcP : ¬(smp.valid = true ∧ ri smp.data = rid ∧ ni smp.data = tgt) := by
        intro hx
        exact hc (by simp only [Bool.and_eq_true, beq_iff_eq, and_assoc]; exact hx)
      simp only [find_matching, if_neg hc, List.forall_mem_cons, ih]
      simp [hcP]

theorem find_matching_some {α : Type} (ri : α → Nat) (ni : α → String)
    (rid : Nat) (tgt : String) (batch : List (Sample α)) (r : α)
    (h : find_matching ri ni rid tgt batch = some r) :
    ∃ smp ∈ batch, smp.valid = true ∧ smp.data = r ∧ ri r = rid ∧ ni r = tgt := by
  induction batch with
  | nil => cases h
  | cons smp rest ih =>
    by_cases hc : (smp.valid && (ri smp.data == rid) && (ni smp.data == tgt)) = true
    · have hcP : smp.valid = true ∧ ri smp.data = rid ∧ ni smp.data = tgt := by
        simpa only [Bool.and_eq_true, beq_iff_eq, and_assoc] using hc
      simp only [find_matching, if_pos hc, Option.some.injEq] at h
      subst h
      exact ⟨smp, List.mem_cons_self smp rest, hcP.1, rfl, hcP.2.1, hcP.2.2⟩
    · simp only [find_matching, if_neg hc] at h
      obtain ⟨smp2, hmem, hrest⟩ := ih h
      exact ⟨smp2, List.mem_cons_of_mem smp hmem, hrest⟩

theorem wait_error_iff {α : Type} (ri : α → Nat) (ni : α → String)
    (rid : Nat) (tgt : String) (polls : List (List (Sample α))) :
    wait_for_response ri ni rid tgt polls = .error () ↔
      ∀ batch ∈ polls, ∀ smp ∈ batch,
        ¬(smp.valid = true ∧ ri smp.data = rid ∧ ni smp.data = tgt) := by
  induction polls with
  | nil => simp [wait_for_response]
  | cons batch later ih =>
    cases hf : find_matching ri ni rid tgt batch with
    | some r =>
      simp only [wait_for_response, hf]
      constructor
      · intro habs
        cases habs
      · intro hall
        obtain ⟨smp, hmem, hv, hd, hr, hn⟩ := find_matching_some ri ni rid tgt batch r hf
        exact absurd ⟨hv, by rw [hd]; exact hr, by rw [hd]; exact hn⟩
          (hall batch (List.mem_cons_self batch later) smp hmem)
    | none =>
      have hbatch := (find_matching_none_iff ri ni rid tgt batch).mp hf
      simp only [wait_for_response, hf, List.forall_mem_cons, ih]
      exact ⟨fun hl => ⟨hbatch, hl⟩, fun hb => hb.2⟩

theorem wait_ok {α : Type} (ri : α → Nat) (ni : α → String)
    (rid : Nat) (tgt : String) (polls : List (List (Sample α))) (r : α)
    (h : wait_for_response ri ni rid tgt polls = .ok r) :
    (∃ batch ∈ polls, ∃ smp ∈ batch, smp.valid = true ∧ smp.data = r) ∧
      ri r = rid ∧ ni r = tgt := by
  induction polls with
  | nil => cases h
  | cons batch later ih =>
    cases hf : find_matching ri ni rid tgt batch with
    | some r2 =>
      simp only [wait_for_response, hf, Except.ok.injEq] at h
      subst h
      obtain ⟨smp, hmem, hv, hd, hr, hn⟩ := find_matching_some ri ni rid tgt batch r2 hf
      exact ⟨⟨batch, List.mem_cons_self batch later, smp, hmem, hv, hd⟩, hr, hn⟩
    | none =>
      simp only [wait_for_response, hf] at h
      obtain ⟨⟨batch2, hb, hrest⟩, hr, hn⟩ := ih h
      exact ⟨⟨batch2, List.mem_cons_of_mem batch hb, hrest⟩, hr, hn⟩

theorem except_map_ok {α β : Type} (f : α → β) (x : Except Unit α) (y : β)
    (h : x.map f = .ok y) : ∃ a, x = .ok a ∧ y = f a := by
  cases x with
  | ok a =>
    simp only [Except.map] at h
    cases h
    exact ⟨a, rfl, rfl⟩
  | error e => cases h

/-- C7: wait_for_response returns only a valid sample that matches both
the assigned request id and the target node name, and it times out with
an exception exactly when no poll delivers such a sample; consequently
each of the client operations set_parameters, get_parameters and
list_parameters either returns a response matching its own request or
throws. -/
theorem c7_wait_for_response (rid : Nat) (tgt : String)
    (spolls : List (List (Sample SetParametersResponse)))
    (gpolls : List (List (Sample GetParametersResponse)))
    (lpolls : List (List (Sample ListParametersResponse)))
    (params : List Parameter) (names : List String) (pres : List String) (depth : Nat) :
    ((wait_for_response SetParametersResponse.request_id SetParametersResponse.node_id
        rid tgt spolls = .error ()) ↔
      ∀ batch ∈ spolls, ∀ smp ∈ batch,
        ¬(smp.valid = true ∧ smp.data.request_id = rid ∧ smp.data.node_id = tgt))
  ∧ (∀ r, wait_for_response SetParametersResponse.request_id SetParametersResponse.node_id
        rid tgt spolls = .ok r →
      (∃ batch ∈ spolls, ∃ smp ∈ batch, smp.valid = true ∧ smp.data = r) ∧
        r.request_id = rid ∧ r.node_id = tgt)
  ∧ (∀ resp, (client_set_parameters rid tgt params spolls).2 = .ok resp →
      resp.request_id = (client_set_parameters rid tgt params spolls).1.request_id ∧
        resp.node_id = (client_set_parameters rid tgt params spolls).1.node_id)
  ∧ (∀ out, (client_get_parameters rid tgt names gpolls).2 = .ok out →
      ∃ resp : GetParametersResponse,
        resp.request_id = (client_get_parameters rid tgt names gpolls).1.request_id ∧
        resp.node_id = (client_get_parameters rid tgt names gpolls).1.node_id ∧
        out = resp.parameters)
  ∧ (∀ out, (client_list_parameters rid tgt pres depth lpolls).2 = .ok out →
      ∃ resp : ListParametersResponse,
        resp.request_id = (client_list_parameters rid tgt pres depth lpolls).1.request_id ∧
        resp.node_id = (client_list_parameters rid tgt pres depth lpolls).1.node_id ∧
        out = resp.names) := by
  refine ⟨wait_error_iff _ _ rid tgt spolls, fun r h => wait_ok _ _ rid tgt spolls r h,
          ?_, ?_, ?_⟩
  · intro resp h
    have h2 := wait_ok SetParametersResponse.request_id SetParametersResponse.node_id
      rid tgt spolls resp h
    exact ⟨h2.2.1, h2.2.2⟩
  · intro out h
    obtain ⟨resp, hok, hout⟩ := except_map_ok _ _ _ h
    have h2 := wait_ok GetParametersResponse.request_id GetParametersResponse.node_id
      rid tgt gpolls resp hok
    exact ⟨resp, h2.2.1, h2.2.2, hout⟩
  · intro out h
    obtain ⟨resp, hok, hout⟩ := except_map_ok _ _ _ h
    have h2 := wait_ok ListParametersResponse.request_id ListParametersResponse.node_id
      rid tgt lpolls resp hok
    exact ⟨resp, h2.2.1, h2.2.2, hout⟩

theorem unquote_squote (nn : String) (h : squoteChar ∉ nn.data) :
    unquote (squote ++ nn ++ squote) = some nn := by
  obtain ⟨d⟩ := nn
  have h2 : squoteChar ∉ d := h
  show unquote (String.mk (squoteChar :: (d ++ [squoteChar]))) = some (String.mk d)
  simp [unquote, h2]

/-- C4: all three request readers of the server use content-filtered
topics built from the single filter expression "node_id = %0" whose only
parameter is the quoted server node name, and that filter accepts a
request sample exactly when the sample's node_id equals the server's
node name; a request addressed to any other node is rejected. -/
theorem c4_content_filter (nn nid : String) (h : squoteChar ∉ nn.data) :
    ((setup_request_filters nn).set_request_filter = server_request_filter nn
  ∧ (setup_request_filters nn).get_request_filter = server_request_filter nn
  ∧ (setup_request_filters nn).list_request_filter = server_request_filter nn)
  ∧ (cft_accepts (server_request_filter nn) nid = true ↔ nid = nn) := by
  refine ⟨⟨rfl, rfl, rfl⟩, ?_⟩
  have e : cft_accepts (server_request_filter nn) nid =
      match unquote (squote ++ nn ++ squote) with
      | some lit => nid == lit
      | none => false := rfl
  rw [e, unquote_squote nn h]
  simp

theorem parse_loop_cons_cons (acc : ArgValues) (a v : String) (rest : List String) :
    parse_loop acc (a :: v :: rest) =
      match flagOf a with
      | some f => parse_loop (applyFlag f v acc) rest
      | none => if isHelpFlag a then (acc, ParseReturn.exit) else (acc, ParseReturn.failure) := by
  by_cases h1 : (a = "-d" || a = "--domain") = true
  · simp [parse_loop, flagOf, h1, applyFlag]
  · by_cases h2 : (a = "-v" || a = "--verbosity") = true
    · simp [parse_loop, flagOf, h1, h2, applyFlag]
    · by_cases h3 : (a = "-q" || a = "--qos-file") = true
      · simp [parse_loop, flagOf, h1, h2, h3, applyFlag]
      · by_cases h4 : (a = "-r" || a = "--send-rate") = true
        · simp [parse_loop, flagOf, h1, h2, h3, h4, applyFlag]
        · by_cases h5 : (a = "-b" || a = "--burst-duration") = true
          · simp [parse_loop, flagOf, h1, h2, h3, h4, h5, applyFlag]
          · by_cases h6 : (a = "-h" || a = "--help") = true
            · simp [parse_loop, flagOf, isHelpFlag, h1, h2, h3, h4, h5, h6]
            · simp [parse_loop, flagOf, isHelpFlag, h1, h2, h3, h4, h5, h6]

theorem flag_not_help (a : String) (f : CFlag) (hf : flagOf a = some f) :
    isHelpFlag a = false := by
  by_cases hh : isHelpFlag a = true
  · exfalso
    have : a = "-h" ∨ a = "--help" := by simpa [isHelpFlag] using hh
    rcases this with h | h <;> subst h <;> simp [flagOf] at hf
  · simpa using hh

theorem parse_loop_eq_claimed (n : Nat) :
    ∀ (l : List String), l.length ≤ n → ∀ acc, parse_loop acc l = claimedParse acc l := by
  induction n with
  | zero =>
    intro l hl acc
    have hnil : l = [] := List.eq_nil_of_length_eq_zero (Nat.le_zero.mp hl)
    subst hnil
    rfl
  | succ n ih =>
    intro l hl acc
    match l with
    | [] => rfl
    | [a] =>
      show parse_loop acc [a] = claimedParse acc [a]
      rw [claimedParse.eq_def]
      by_cases hh : isHelpFlag a = true
      · have hb : (a = "-h" || a = "--help") = true := by simpa [isHelpFlag] using hh
        simp [parse_loop, hb, hh]
      · have hb : ¬(a = "-h" || a = "--help") = true := by simpa [isHelpFlag] using hh
        have hh2 : isHelpFlag a = false := by simpa using hh
        cases hfa : flagOf a with
        | some f => simp [parse_loop, hb, hh2, hfa]
        | none => simp [parse_loop, hb, hh2, hfa]
    | a :: v :: rest =>
      have hlen : rest.length ≤ n := by
        simp only [List.length_cons] at hl
        omega
      rw [parse_loop_cons_cons, claimedParse.eq_def]
      cases hfa : flagOf a with
      | some f =>
        have hh : isHelpFlag a = false := flag_not_help a f hfa
        simp only [hh, Bool.false_eq_true, if_false, hfa]
        exact ih rest hlen (applyFlag f v acc)
      | none =>
        by_cases hh : isHelpFlag a = true <;> simp [hh, hfa]

/-- C5: parse_arguments is a total function of the argument list: with
no tokens it keeps the defaults (domain DEFAULT_DOMAIN_ID, verbosity
EXCEPTION, the default QoS path, send rate 100, burst duration 10) and
returns ok; and on every argument list it behaves as the claimed
parser, in which each recognized value-taking flag consumes two tokens
and overwrites its field (numbers via atoi, verbosity via the 0 to 3
mapping), help stops with exit, and any other token, including a
value-taking flag with no following token, stops with failure, keeping
the values accumulated so far. -/
theorem c5_parse_arguments (argv : List String) (acc : ArgValues) :
    (parse_arguments [] =
      { parse_result := .ok, domain_id := DEFAULT_DOMAIN_ID,
        verbosity := .EXCEPTION,
        qos_file_path := "../../../../dds/qos/DDS_QOS_PROFILES.xml",
        send_rate := 100, burst_duration := 10 })
  ∧ parse_loop acc argv = claimedParse acc argv
  ∧ parse_arguments argv =
      { parse_result := (claimedParse default_arg_values argv).2,
        domain_id := (claimedParse default_arg_values argv).1.domain_id,
        verbosity := (claimedParse default_arg_values argv).1.verbosity,
        qos_file_path := (claimedParse default_arg_values argv).1.qos_file_path,
        send_rate := (claimedParse default_arg_values argv).1.send_rate,
        burst_duration := (claimedParse default_arg_values argv).1.burst_duration } := by
  refine ⟨rfl, parse_loop_eq_claimed argv.length argv le_rfl acc, ?_⟩
  unfold parse_arguments
  rw [parse_loop_eq_claimed argv.length argv le_rfl default_arg_values]

theorem yaml_go_cons (acc : List Parameter) (node : YamlParamNode)
    (rest : List YamlParamNode) :
    yaml_go acc (node :: rest) =
      match nodeOutcome node with
      | none => acc
      | some none => yaml_go acc rest
      | some (some p) => yaml_go (acc ++ [p]) rest := by
  simp only [yaml_go, nodeOutcome]
  cases node.nameVal with
  | none => rfl
  | some name =>
    cases node.typeVal with
    | none => rfl
    | some ty =>
      by_cases h1 : ty = "string"
      · simp only [if_pos h1]
        cases node.asString <;> rfl
      · simp only [if_neg h1]
        by_cases h2 : ty = "double"
        · simp only [if_pos h2]
          cases node.asDouble <;> rfl
        · simp only [if_neg h2]
          by_cases h3 : ty = "integer"
          · simp only [if_pos h3]
            cases node.asInteger <;> rfl
          · simp only [if_neg h3]
            by_cases h4 : ty = "bool"
            · simp only [if_pos h4]
              cases node.asBool <;> rfl
            · simp only [if_neg h4]
              by_cases h5 : ty = "string_array"
              · simp only [if_pos h5]
                cases node.asStringArray <;> rfl
              · simp only [if_neg h5]
                by_cases h6 : ty = "double_array"
                · simp only [if_pos h6]
                  cases node.asDoubleArray <;> rfl
                · simp only [if_neg h6]
                  by_cases h7 : ty = "integer_array"
                  · simp only [if_pos h7]
                    cases node.asIntegerArray <;> rfl
                  · simp only [if_neg h7]
                    by_cases h8 : ty = "bool_array"
                    · simp only [if_pos h8]
                      cases node.asBoolArray <;> rfl
                    · simp only [if_neg h8]

theorem yaml_go_append (ns : List YamlParamNode) (acc : List Parameter) :
    yaml_go acc ns = acc ++ yaml_go [] ns := by
  induction ns generalizing acc with
  | nil => simp [yaml_go]
  | cons node rest ih =>
    rw [yaml_go_cons, yaml_go_cons]
    cases h : nodeOutcome node with
    | none => simp
    | some o =>
      cases o with
      | none => exact ih acc
      | some p =>
        show yaml_go (acc ++ [p]) rest = acc ++ yaml_go ([] ++ [p]) rest
        rw [ih (acc ++ [p]), ih ([] ++ [p])]
        simp

/-- C6: load_from_yaml is total (never throws): per entry in file order
it appends one parameter carrying the entry's name and the value tagged
with the variant matching its recognized type string, skips entries with
any other type string, stops at the first entry whose processing raises
a YAML exception and returns what was accumulated before it, and
returns the empty list when the file cannot be loaded or has no
parameters node. -/
theorem c6_load_from_yaml (nodes : List YamlParamNode) :
    (load_from_yaml (.parameters nodes) =
       (nodes.takeWhile (fun node => (nodeOutcome node).isSome)).filterMap
         (fun node => (nodeOutcome node).join))
  ∧ load_from_yaml .loadError = []
  ∧ load_from_yaml .noParameters = [] := by
  refine ⟨?_, rfl, rfl⟩
  show yaml_go [] nodes = _
  induction nodes with
  | nil => rfl
  | cons node rest ih =>
    rw [yaml_go_cons]
    cases h : nodeOutcome node with
    | none => simp [List.takeWhile_cons, h]
    | some o =>
      cases o with
      | none => simp [List.takeWhile_cons, h, List.filterMap_cons, ih]
      | some p =>
        show yaml_go ([] ++ [p]) rest = _
        rw [yaml_go_append rest ([] ++ [p])]
        simp [List.takeWhile_cons, h, List.filterMap_cons, ih]

/-! Witness theorems: each one applies its claim theorem at concrete
inputs and discharges the hypotheses there. -/

/-- Witness for C1 at a concrete state and batch: the invalid sample is
dropped and the absent name zzz is omitted from the single response. -/
theorem c1_witness :
    handle_get_requests stAB
        [{ valid := true, data := reqGetW }, { valid := false, data := reqGetW2 }] =
      [{ node_id := "srv", request_id := 5, parameters := [pB, pA] }] :=
  (c1_get_request_handler stAB
    [{ valid := true, data := reqGetW }, { valid := false, data := reqGetW2 }]).trans
    (by decide)

/-- Witness for C2 at a fresh server and a one-parameter request. -/
theorem c2_witness :
    (default_set_handler 0 (initial_state "srv") reqSetW).2.1.results =
        [{ successful := true, reason := "" }]
  ∧ mapFind (default_set_handler 0 (initial_state "srv") reqSetW).1.parameters "a" = some pA
  ∧ (set_parameter (initial_state "srv") pA).pending_new = [pA] := by
  have h := c2_default_set_handler 0 (initial_state "srv") reqSetW pA "a"
  refine ⟨h.2.2.1.trans (by decide), h.2.2.2.1.trans (by decide), ?_⟩
  exact ((h.2.2.2.2.1 (by decide)).1).trans (by decide)

/-- Witness for C3 at a concrete state: a prefix with a depth bound
filters out the dotted name, and the empty prefix lists everything. -/
theorem c3_witness :
    list_parameter_names stAB "b" 1 = [] ∧ list_parameter_names stAB "" 0 = ["a", "b.c"] :=
  ⟨(c3_list_parameter_names stAB "b" 1 reqListW).1.trans (by decide),
   (c3_list_parameter_names stAB "" 0 reqListW).1.trans (by decide)⟩

/-- Witness for C4: the srv filter accepts node srv and rejects node
other. -/
theorem c4_witness :
    cft_accepts (server_request_filter "srv") "srv" = true ∧
      cft_accepts (server_request_filter "srv") "other" = false := by
  constructor
  · exact (c4_content_filter "srv" "srv" (by decide)).2.mpr rfl
  · have h := (c4_content_filter "srv" "other" (by decide)).2
    cases hb : cft_accepts (server_request_filter "srv") "other"
    · rfl
    · exact absurd (h.mp hb) (by decide)

/-- Witness for C5: a domain flag consumes two tokens and an unknown
token stops with failure, keeping the accumulated domain value. -/
theorem c5_witness :
    parse_arguments ["-d", "7", "-x"] =
      { parse_result := .failure, domain_id := 7, verbosity := .EXCEPTION,
        qos_file_path := "../../../../dds/qos/DDS_QOS_PROFILES.xml",
        send_rate := 100, burst_duration := 10 } :=
  ((c5_parse_arguments ["-d", "7", "-x"] default_arg_values).2.2).trans (by decide)

/-- Witness for C6: the recognized entry is loaded, the unknown type is
skipped, the failing entry stops the loop and drops the tail. -/
theorem c6_witness :
    load_from_yaml (.parameters [yn1, yn2, yn3, yn1]) =
      [{ name := "x", value := .string_value "v" }] :=
  ((c6_load_from_yaml [yn1, yn2, yn3, yn1]).1).trans (by decide)

/-- Witness for C7: the response delivered in the second poll is
returned and matches the request id and the target node. -/
theorem c7_witness :
    (∃ batch ∈ spollsW, ∃ smp ∈ batch, smp.valid = true ∧ smp.data = respW) ∧
      respW.request_id = 3 ∧ respW.node_id = "srv" :=
  (c7_wait_for_response 3 "srv" spollsW [] [] [] [] [] 0).2.1 respW rfl

/-- Witness for C8: a pending-new entry forces an event whose new list
is the pending list, and the pendings are cleared. -/
theorem c8_witness :
    (publish_event 7 stPend).1.isSome
  ∧ evW.new_parameters = [pA]
  ∧ (publish_event 7 stPend).2.pending_new = []
  ∧ (publish_event 7 stPend).2.pending_changed = []
  ∧ (publish_event 7 stPend).2.pending_deleted = [] := by
  have h := c8_publish_event 7 stPend evW
  exact ⟨h.1.mpr (by decide), (h.2.1 rfl).2.1, h.2.2.1, h.2.2.2.1, h.2.2.2.2⟩

/-- Witness for C9: deleting a removes it, leaves b.c, and publishes it
in the deleted list. -/
theorem c9_witness :
    mapFind (delete_parameter 5 stAB "a").2.parameters "a" = none
  ∧ mapFind (delete_parameter 5 stAB "a").2.parameters "b.c" = some pB
  ∧ (delete_parameter 5 stAB "a").1 =
      some { node_id := "srv", timestamp_ns := 5, new_parameters := [],
             changed_parameters := [], deleted_parameters := [pA] } := by
  have hab : ("a" : String) < "b.c" := by
    rw [String.lt_iff_toList_lt]
    decide
  have hpw : (stAB.parameters.map Prod.fst).Pairwise (· < ·) := by
    show (["a", "b.c"] : List String).Pairwise (· < ·)
    refine List.pairwise_cons.mpr ⟨?_, List.pairwise_singleton _ _⟩
    intro b hb
    simp only [List.mem_singleton] at hb
    subst hb
    exact hab
  have h := c9_delete_parameter 5 stAB "a" pA "b.c" hpw
  exact ⟨h.1, (h.2.1 (by decide)).trans (by decide), h.2.2.1 (by decide)⟩

/-- Witness for C10 at a state reached by two sets in dotted-name-first
order: the outputs are sorted and duplicate-free. -/
theorem c10_witness :
    ((get_all_parameters s10).map Parameter.name).Pairwise (· < ·)
  ∧ (list_parameter_names s10 "" 0).Nodup := by
  have h := c10_sorted_output s10 "" 0
    (Reachable.set_param _ pA (Reachable.set_param _ pB (Reachable.init "srv")))
  exact ⟨h.1, h.2.2.2⟩

end CSK
